import Mathlib

/- Verification development for the neurax core of this repository
(a fork of jaxley).  Shallow embedding of:

* `src/neurax/utils/swc.py` — `_build_parents`;
* `src/neurax/modules/network.py` — `Network.__getattr__`,
  `Network.init_morph`, `Network.step`;
* `src/jaxley/channels/channel.py` — the pluggable channel interface.

Machine floats of the source are modelled as exact integers (only dataflow
and shapes, never rounding, are at stake in the claims below) and jnp arrays
as lists.  Components that live in modules of this repository outside the files
above (`neurax.integrate._step_synapse`, the base `Module.step_channels`, the
branched solver `step_voltages`, `neurax.stimulus.get_external_input`, the
`Cell` class and the `neurax.cell` helpers) are modelled from the
specification, as marked on each such definition. -/

namespace NeuraxSpec

/- ## SWC branch reconstruction (`src/neurax/utils/swc.py`) -/

/-- One reconstructed SWC branch: the list of SWC node ids it traverses
(the output format of `_split_into_branches`). -/
abbrev SwcBranch := List Int

/-- One entry of the parent array built by `_build_parents`
(`src/neurax/utils/swc.py` lines 76-87).  `all_last` is the list of last node
ids of all branches and `first` is branch `i`'s first node id.  Mirrors
`ind = np.where(np.asarray(all_last_inds) == parent_ind)[0]` followed by
`if len(ind) > 0 and ind != i`: with one match the guard compares a
one-element array (truthy iff the entry differs from `i`); with two or more
matches evaluating the truth value of the multi-element boolean array raises
`ValueError`, modelled as the error case. -/
def buildParentEntry (all_last : List Int) (i : Nat) (first : Int) : Except String Int :=
  match (List.range all_last.length).filter (fun j => all_last.getD j 0 == first) with
  | [] => Except.ok (-1)
  | [j] => if j = i then Except.ok (-1) else Except.ok (j : Int)
  | _ => Except.error ("The truth value of an array with more than one element is ambiguous")

/-- The enumeration loop of `_build_parents`: entry `i` is computed from
branch `i`'s first node id. -/
def buildParentsAux (all_last : List Int) (branches : List SwcBranch) (i : Nat) :
    Except String (List Int) :=
  match branches with
  | [] => Except.ok []
  | b :: rest =>
    match buildParentEntry all_last i (b.headD 0) with
    | Except.error e => Except.error e
    | Except.ok p =>
      match buildParentsAux all_last rest (i + 1) with
      | Except.error e => Except.error e
      | Except.ok ps => Except.ok (p :: ps)

/-- `_build_parents` from `src/neurax/utils/swc.py`: for every branch, look for
a branch whose last node id equals this branch's first node id.  Python
`b[-1]` is modelled as `getLastD 0` (the SWC splitter never yields an empty
branch). -/
def build_parents (all_branches : List SwcBranch) : Except String (List Int) :=
  buildParentsAux (all_branches.map (fun b => b.getLastD 0)) all_branches 0

/-- The candidate parent indices `np.where(all_last_inds == parent_ind)[0]`
that `_build_parents` inspects for branch `i`. -/
def parent_candidate_inds (all_branches : List SwcBranch) (i : Nat) : List Nat :=
  (List.range (all_branches.map (fun b => b.getLastD 0)).length).filter
    (fun j => (all_branches.map (fun b => b.getLastD 0)).getD j 0 ==
      (all_branches.getD i []).headD 0)

/- ## Morphology indexing (`Network.init_morph`) -/

/-- A cell, as `Network.init_morph` consumes it.  The `Cell` class is not
under src/; per the specification a cell carries a parent array over its
branches (entry 0 is the root sentinel −1) and its branch count is the length
of that array. -/
structure CellModel where
  parents : List Int
deriving DecidableEq

/-- Default cell used by `List.getD` on cell lists. -/
def dCell : CellModel := ⟨[]⟩

def CellModel.nbranches (c : CellModel) : Nat := c.parents.length

/-- `self.nbranches = [cell.nbranches for cell in self.cells]`. -/
def network_nbranches (cells : List CellModel) : List Nat :=
  cells.map CellModel.nbranches

/-- Running-sum scan underlying `np.cumsum`: applied to `acc = 0` and a list
`l` it yields the cumulative sums of `[0] + l`. -/
def cumsumAux (acc : Nat) : List Nat → List Nat
  | [] => [acc]
  | x :: xs => acc :: cumsumAux (acc + x) xs

/-- `self.cumsum_num_branches = jnp.cumsum(jnp.asarray([0] + self.nbranches))`
(`Network.init_morph`, line 57). -/
def cumsum_num_branches (cells : List CellModel) : List Nat :=
  cumsumAux 0 (network_nbranches cells)

/-- `p.at[1:].add(offset)`: add `offset` to every entry except entry 0. -/
def shift_parents (p : List Int) (offset : Nat) : List Int :=
  match p with
  | [] => []
  | h :: t => h :: t.map (fun x => x + (offset : Int))

/-- The concatenation loop of `comb_parents`: the parent array of cell `i` is
shifted by `cumsum_num_branches[i]`. -/
def comb_parents_aux (csum : List Nat) (ps : List (List Int)) (i : Nat) : List Int :=
  match ps with
  | [] => []
  | p :: rest => shift_parents p (csum.getD i 0) ++ comb_parents_aux csum rest (i + 1)

/-- `self.comb_parents` of `Network.init_morph` (lines 64-67). -/
def comb_parents (cells : List CellModel) : List Int :=
  comb_parents_aux (cumsum_num_branches cells) (cells.map CellModel.parents) 0

/-- Modelled from the spec: `_compute_index_of_kid` (from `neurax.cell`, not
under src/) gives each branch its position among the siblings sharing its
parent (spec section 4.1 (d)); roots get −1.  Only its numeric output is
modelled here; the `TopologyError` validation that spec sections 4.1 and 7
attribute to the indexing stage these helpers implement is modelled by
`check_topology` below, which `init_morph` runs before returning any
structures. -/
def compute_index_of_kid (parents : List Int) : List Int :=
  (List.range parents.length).map (fun i =>
    if parents.getD i 0 = -1 then -1
    else (((List.range i).filter (fun j => parents.getD j 0 == parents.getD i 0)).length : Int))

/-- `comb_ind_of_kids` of `Network.init_morph` (lines 79-81). -/
def comb_ind_of_kids (cells : List CellModel) : List Int :=
  (cells.map (fun c => compute_index_of_kid c.parents)).flatten

/-- The three columns of the `pd.DataFrame` built at the end of
`Network.init_morph` (lines 92-105). -/
structure NodesTable where
  comp_index : List Nat
  branch_index : List Nat
  cell_index : List Nat
deriving DecidableEq

/-- `np.arange(self.nseg * sum(self.nbranches))`. -/
def comp_index_col (cells : List CellModel) (nseg : Nat) : List Nat :=
  List.range (nseg * (network_nbranches cells).sum)

/-- `np.arange(self.nseg * sum(self.nbranches)) // self.nseg`. -/
def branch_index_col (cells : List CellModel) (nseg : Nat) : List Nat :=
  (List.range (nseg * (network_nbranches cells).sum)).map (fun i => i / nseg)

/-- `itertools.chain(*[[i] * (self.nseg * b) for i, b in enumerate(self.nbranches)])`. -/
def cell_index_aux (nseg : Nat) : List CellModel → Nat → List Nat
  | [], _ => []
  | c :: rest, i => List.replicate (nseg * c.nbranches) i ++ cell_index_aux nseg rest (i + 1)

def cell_index_col (cells : List CellModel) (nseg : Nat) : List Nat :=
  cell_index_aux nseg cells 0

def init_morph_nodes (cells : List CellModel) (nseg : Nat) : NodesTable :=
  ⟨comp_index_col cells nseg, branch_index_col cells nseg, cell_index_col cells nseg⟩

/-- The derived index structures `Network.init_morph` stores on the network.
The level-merge structures built by `merge_cells` are omitted: no claim
depends on their numeric content; the topology validation the spec attributes
to the helper stage that builds them is modelled by `check_topology` below. -/
structure MorphStructs where
  cumsum_num_branches : List Nat
  comb_parents : List Int
  comb_ind_of_kids : List Int
  nodes : NodesTable
deriving DecidableEq

/-- The topology error taxonomy of spec section 7: malformed parent/child
relationships, always fatal, surfaced at indexing time. -/
inductive TopologyError where
  | outOfRangeParent
  | cycleDetected
  | excessFanOut
deriving DecidableEq

/-- Modelled from the spec (section 4.1): a combined parent array has an
out-of-range parent when some entry is neither the root sentinel −1 nor a
valid branch index. -/
def has_out_of_range_parent (ps : List Int) : Bool :=
  ps.any (fun p => !(p == -1) && (decide (p < 0) || decide ((ps.length : Int) ≤ p)))

/-- Modelled from the spec: one step along the parent pointers (`none` at a
root or at an unusable parent entry). -/
def parent_step (ps : List Int) (i : Nat) : Option Nat :=
  let p := ps.getD i (-1)
  if 0 ≤ p ∧ p < (ps.length : Int) then some p.toNat else none

/-- Modelled from the spec: `k` steps along the parent pointers. -/
def iterate_parent (ps : List Int) (i : Nat) : Nat → Option Nat
  | 0 => some i
  | k + 1 =>
    match iterate_parent ps i k with
    | none => none
    | some j => parent_step ps j

/-- Modelled from the spec (section 4.1): a cycle exists when some branch is
reachable from itself via parent pointers (any cycle closes within
`ps.length` steps). -/
def has_cycle (ps : List Int) : Bool :=
  (List.range ps.length).any (fun i =>
    (List.range ps.length).any (fun k => iterate_parent ps i (k + 1) == some i))

/-- Modelled from the spec (section 4.1): some parent has more than
`max_num_kids` children attached to it. -/
def has_excess_fanout (ps : List Int) (max_num_kids : Nat) : Bool :=
  (List.range ps.length).any (fun j =>
    decide (max_num_kids < (ps.filter (fun p => p == (j : Int))).length))

/-- Modelled from the spec: the `neurax.cell` helpers invoked by
`Network.init_morph` (`merge_cells`, `_compute_index_of_kid`,
`cum_indizes_of_kids`) are not under src/; per spec sections 4.1 and 7 this
indexing stage fails with a `TopologyError`, surfaced immediately at indexing
time, if a parent index is out of range, if a cycle is detected (a branch
reachable from itself via parent pointers), or if more than `max_num_kids`
children attach to one parent. -/
def check_topology (ps : List Int) (max_num_kids : Nat) : Except TopologyError Unit :=
  if has_out_of_range_parent ps then Except.error TopologyError.outOfRangeParent
  else if has_cycle ps then Except.error TopologyError.cycleDetected
  else if has_excess_fanout ps max_num_kids then Except.error TopologyError.excessFanOut
  else Except.ok ()

/-- `Network.init_morph` (`src/neurax/modules/network.py` lines 55-107).  The
visible body computes `cumsum_num_branches`, `comb_parents`, the kid indices
and the nodes table; between these it invokes the `neurax.cell` helpers
(`merge_cells`, `_compute_index_of_kid`, `cum_indizes_of_kids`), which are
not under src/ and which, per spec sections 4.1 and 7, surface a
`TopologyError` immediately at indexing time on a malformed topology.  That
stage is modelled by `check_topology` on the combined parent array with
`max_num_kids = 4` (line 58), run before any derived structure is returned.
(The commented-out assertion at lines 59-62 concerns only `max_num_kids`
consistency across cells, not the topology itself.) -/
def init_morph (cells : List CellModel) (nseg : Nat) : Except TopologyError MorphStructs :=
  match check_topology (comb_parents cells) 4 with
  | Except.error e => Except.error e
  | Except.ok _ =>
    Except.ok ⟨cumsum_num_branches cells, comb_parents cells, comb_ind_of_kids cells,
      init_morph_nodes cells nseg⟩

/-- Branch-count prefix sum over the first `c` cells. -/
def csum_take (cells : List CellModel) (c : Nat) : Nat :=
  ((cells.take c).map CellModel.nbranches).sum

def total_nbranches (cells : List CellModel) : Nat :=
  (network_nbranches cells).sum

/-- Sum of the lengths of a list of lists. -/
def sum_lens (ps : List (List Int)) : Nat :=
  (ps.map List.length).sum

/- ## Attribute lookup (`Network.__getattr__`) -/

/-- Python exceptions distinguished by claim C9. -/
inductive PyExn where
  | assertionError
  | attributeError
deriving DecidableEq

/-- The excluded `CellView` collaborator, reduced to the data
`Network.__getattr__` hands it: the network's `nodes` table. -/
structure CellViewModel where
  nodes : NodesTable
deriving DecidableEq

/-- `Network.__getattr__` (`src/neurax/modules/network.py` lines 51-53):
`assert key == "cell"` followed by `return CellView(self, self.nodes)`.
Python calls `__getattr__` only for attribute names with no ordinary binding;
a failed `assert` raises `AssertionError`, so the default `AttributeError` is
never reached. -/
def network_getattr (nodes : NodesTable) (key : String) : Except PyExn CellViewModel :=
  if key = ("cell" : String) then Except.ok ⟨nodes⟩
  else Except.error PyExn.assertionError

/- ## The step orchestrator (`Network.step`) -/

/-- `Dict[str, jnp.ndarray]`: the global state vector, an insertion-ordered
mapping from state name to per-compartment values. -/
abbrev StateDict := List (String × List ℤ)

/-- Python dict lookup (keys are unique; the first binding wins). -/
def StateDict.lookup (d : StateDict) (k : String) : Option (List ℤ) :=
  match d with
  | [] => none
  | kv :: t => if kv.1 = k then some kv.2 else StateDict.lookup t k

/-- `u[key]` with an empty-array default (the source would raise `KeyError`
on a missing key; no claim exercises that path). -/
def StateDict.lookupD (d : StateDict) (k : String) : List ℤ :=
  (StateDict.lookup d k).getD []

/-- Python `d[key] = v`: replace the binding if present, else append. -/
def StateDict.set (d : StateDict) (k : String) (v : List ℤ) : StateDict :=
  match d with
  | [] => [(k, v)]
  | kv :: t => if kv.1 = k then (k, v) :: t else kv :: StateDict.set t k v

/-- `jnp.reshape(x, (rows, cols))`, row-major.  (At lines 168-171 the source
passes the Python list `self.nbranches` where a row count is required; the
total branch count is the only row count consistent with the flat
per-compartment vectors and with `num_branches` expected by the solver, so
the reshape is modelled with it.) -/
def reshape2 (l : List ℤ) (rows cols : Nat) : List (List ℤ) :=
  (List.range rows).map (fun r => (List.range cols).map (fun c => l.getD (r * cols + c) 0))

/-- Elementwise `+` of two equally shaped matrices. -/
def addMat (a b : List (List ℤ)) : List (List ℤ) :=
  List.zipWith (fun ra rb => List.zipWith (fun x y => x + y) ra rb) a b

/-- Modelled from the spec: `get_external_input` (`neurax.stimulus`, not under
src/) turns the stimulus description into one constant-term contribution per
compartment, the injected current at each stimulated compartment (spec
sections 4.5 and 6).  The geometric scaling by radius and length is not
modelled; no claim depends on it. -/
def get_external_input (voltages : List ℤ) (i_inds : List Nat) (i_current : List ℤ)
    (_radius _lengths : List ℤ) : List ℤ :=
  (List.range voltages.length).map (fun k =>
    (((i_inds.zip i_current).filter (fun p => p.1 == k)).map (fun p => p.2)).sum)

/-- Modelled from the spec: the branched backward-Euler solver
`step_voltages` (spec section 4.4) is not under src/.  Only the contract the
claims use is modelled: it returns exactly one new voltage per compartment of
its `voltages` argument, as a function of the old voltages, the accumulated
voltage and constant terms and the time step.  The forward-elimination and
back-substitution passes and the coupling-conductance arguments are not
modelled; no claim depends on them. -/
def step_voltages (voltages voltage_terms constant_terms : List (List ℤ)) (delta_t : ℤ) :
    List (List ℤ) :=
  (List.range voltages.length).map (fun b =>
    (List.range ((voltages.getD b []).length)).map (fun k =>
      let v := (voltages.getD b []).getD k 0
      let vt := (voltage_terms.getD b []).getD k 0
      let ct := (constant_terms.getD b []).getD k 0
      v + delta_t * (ct - vt * v)))

/-- The `Network` object as `Network.step` sees it.  The channel and synapse
kinetics are pluggable capabilities (spec sections 4.3 and 6); `step_channels`
(base `Module`) and `_step_synapse` (`neurax.integrate`) are not under src/
and are modelled from the spec as function-valued fields, already closed over
the static channel list, synapse routing tables and parameter dict that
`Network.step` passes them:

* `stepChannelsFn u dt` models
  `self.step_channels(u, dt, self.branches[0].compartments[0].channels, self.params)`
  returning `(new_channel_states, (v_terms, const_terms))`;
* `stepSynapseFn u dt` models
  `_step_synapse(u, self.syn_channels, self.params, dt, ...)` returning
  `(new_syn_states, syn_voltage_terms, syn_constant_terms)`. -/
structure NetworkModel where
  cells : List CellModel
  nseg : Nat
  radius : List ℤ
  lengths : List ℤ
  branch_conds_fwd : Option (List ℤ)
  stepChannelsFn : StateDict → ℤ → List StateDict × (List ℤ × List ℤ)
  stepSynapseFn : StateDict → ℤ → StateDict × List ℤ × List ℤ

def NetworkModel.totalBranches (n : NetworkModel) : Nat :=
  total_nbranches n.cells

/-- Modelled from the spec: the axial conductance of each compartment,
proportional to cross-sectional area over (resistivity times length) with
resistivity taken as 1 (spec section 4.2). -/
def axial_conductances (radius lengths : List ℤ) : List ℤ :=
  (radius.zip lengths).map (fun rl => rl.1 * rl.1 / rl.2)

/-- Modelled from the spec: `init_branch_conds` (base module, not under src/)
computes the coupling conductances from the geometry and stores them on the
network object (spec section 4.2) — the mutation behind the lazy
`if self.branch_conds_fwd is None` guard at lines 138-139 of `Network.step`. -/
def NetworkModel.init_branch_conds (n : NetworkModel) : NetworkModel :=
  ⟨n.cells, n.nseg, n.radius, n.lengths, some (axial_conductances n.radius n.lengths),
    n.stepChannelsFn, n.stepSynapseFn⟩

/-- The `voltage_terms` argument `Network.step` hands to `step_voltages`
(line 169): the reshaped channel-derived `v_terms` and nothing else. -/
def NetworkModel.voltage_terms_arg (n : NetworkModel) (u : StateDict) (dt : ℤ) :
    List (List ℤ) :=
  reshape2 (n.stepChannelsFn u dt).2.1 n.totalBranches n.nseg

/-- The `constant_terms` argument `Network.step` hands to `step_voltages`
(lines 170-171): the reshaped channel-derived `const_terms` plus the reshaped
external stimulus, and nothing else. -/
def NetworkModel.constant_terms_arg (n : NetworkModel) (u : StateDict) (dt : ℤ)
    (i_inds : List Nat) (i_current : List ℤ) : List (List ℤ) :=
  addMat (reshape2 (n.stepChannelsFn u dt).2.2 n.totalBranches n.nseg)
    (reshape2
      (get_external_input (StateDict.lookupD u ("voltages")) i_inds i_current
        n.radius n.lengths)
      n.totalBranches n.nseg)

/-- `Network.step` (`src/neurax/modules/network.py` lines 119-188).  The
returned pair is (the network object after the call, the new state): the
first component records the only mutation the method can perform, the lazy
conductance initialization.  Exactly as in the source, the triple returned by
`_step_synapse` (new synaptic states, synaptic voltage terms, synaptic
constant terms) is bound and then never used: it flows neither into the
solve nor into the returned state. -/
def NetworkModel.step (n0 : NetworkModel) (u : StateDict) (dt : ℤ)
    (i_inds : List Nat) (i_current : List ℤ) : NetworkModel × StateDict :=
  let n := if n0.branch_conds_fwd.isNone then n0.init_branch_conds else n0
  let voltages := StateDict.lookupD u ("voltages")
  let new_channel_states := (n.stepChannelsFn u dt).1
  let _syn := n.stepSynapseFn u dt
  let new_voltages :=
    step_voltages (reshape2 voltages n.totalBranches n.nseg)
      (n.voltage_terms_arg u dt) (n.constant_terms_arg u dt i_inds i_current) dt
  let final_state :=
    StateDict.set (new_channel_states.headD []) ("voltages") new_voltages.flatten
  (n, final_state)

/- ## Concrete instances used by counterexamples and witnesses -/

/-- A channel whose linearized current is identically zero and whose advanced
state is the single gating entry `m`. -/
def exChannelFn : StateDict → ℤ → List StateDict × (List ℤ × List ℤ) :=
  fun _ _ => ([[(("m"), [5])]], ([0], [0]))

/-- A synapse step producing an advanced state entry `s`, synaptic voltage
term 2 and synaptic constant term 3 on the single compartment. -/
def exSynFn : StateDict → ℤ → StateDict × List ℤ × List ℤ :=
  fun _ _ => ([(("s"), [9])], [2], [3])

def exCell : CellModel := ⟨[-1]⟩

/-- One cell, one root branch, one compartment, conductances initialized. -/
def exNet : NetworkModel :=
  ⟨[exCell], 1, [1], [1], some [1], exChannelFn, exSynFn⟩

/-- The same network before conductance initialization. -/
def exNetUninit : NetworkModel :=
  ⟨[exCell], 1, [1], [1], none, exChannelFn, exSynFn⟩

def exU : StateDict := [(("voltages"), [0]), (("m"), [4])]

/-- Two cells with two and three branches. -/
def exCells : List CellModel := [⟨[-1, 0]⟩, ⟨[-1, 0, 1]⟩]

def exNodes : NodesTable := init_morph_nodes exCells 2

/-- Branch node-id lists for the `_build_parents` witness: branch 1's first id
matches branch 0's last id, branch 2's only matching parent is itself. -/
def exBranches : List SwcBranch := [[1, 2], [2, 3], [9, 9]]

/-- One cell whose branch 1 names the out-of-range parent 5. -/
def badCells : List CellModel := [⟨[-1, 5]⟩]

/- ## List helper lemmas -/

theorem getD_append_lt {α : Type} (l l2 : List α) (n : Nat) (d : α) (h : n < l.length) :
    (l ++ l2).getD n d = l.getD n d := by
  induction l generalizing n with
  | nil => exact absurd h (by simp)
  | cons x t ih =>
    cases n with
    | zero => rfl
    | succ m =>
      rw [List.cons_append, List.getD_cons_succ, List.getD_cons_succ]
      exact ih m (Nat.lt_of_succ_lt_succ h)

theorem getD_append_ge {α : Type} (l l2 : List α) (n : Nat) (d : α) :
    (l ++ l2).getD (l.length + n) d = l2.getD n d := by
  induction l with
  | nil => simp
  | cons x t ih =>
    rw [List.cons_append]
    have hn : (x :: t).length + n = (t.length + n) + 1 := by
      rw [List.length_cons]; omega
    rw [hn, List.getD_cons_succ]
    exact ih

theorem getD_replicate_lt {α : Type} (a : α) (m n : Nat) (d : α) (h : n < m) :
    (List.replicate m a).getD n d = a := by
  induction m generalizing n with
  | zero => omega
  | succ k ih =>
    cases n with
    | zero => rfl
    | succ j =>
      rw [List.replicate_succ, List.getD_cons_succ]
      exact ih j (by omega)

theorem getD_range_lt (m n : Nat) (h : n < m) : (List.range m).getD n 0 = n := by
  rw [List.getD_eq_getElem?_getD, List.getElem?_range h]
  rfl

theorem getD_map_lt {α β : Type} (f : α → β) (l : List α) (n : Nat) (d : β) (d2 : α)
    (h : n < l.length) :
    (l.map f).getD n d = f (l.getD n d2) := by
  induction l generalizing n with
  | nil => exact absurd h (by simp)
  | cons x t ih =>
    cases n with
    | zero => rfl
    | succ m =>
      rw [List.map_cons, List.getD_cons_succ, List.getD_cons_succ]
      exact ih m (by simpa using h)

theorem sum_map_const_nat {α : Type} (l : List α) (c : Nat) :
    (l.map (fun _ => c)).sum = l.length * c := by
  induction l with
  | nil => simp
  | cons x t ih =>
    rw [List.map_cons, List.sum_cons, ih, List.length_cons]
    ring

/- ## Lemmas about the morphology indexer -/

theorem cumsumAux_getD (l : List Nat) (acc c : Nat) (h : c ≤ l.length) :
    (cumsumAux acc l).getD c 0 = acc + (l.take c).sum := by
  induction l generalizing acc c with
  | nil =>
    have hc : c = 0 := by simpa using h
    subst hc
    simp [cumsumAux]
  | cons x xs ih =>
    cases c with
    | zero => simp [cumsumAux]
    | succ m =>
      rw [cumsumAux, List.getD_cons_succ, ih (acc + x) m (by simpa using h),
        List.take_succ_cons, List.sum_cons]
      omega

theorem take_network_nbranches (cells : List CellModel) (c : Nat) :
    ((network_nbranches cells).take c).sum = csum_take cells c := by
  unfold network_nbranches csum_take
  rw [List.map_take]

theorem csum_take_succ (cells : List CellModel) (c : Nat) (h : c < cells.length) :
    csum_take cells (c + 1) = csum_take cells c + (cells.getD c dCell).nbranches := by
  induction cells generalizing c with
  | nil => exact absurd h (by simp)
  | cons x t ih =>
    cases c with
    | zero => simp [csum_take]
    | succ m =>
      have h2 : m < t.length := by simpa using h
      have hstep := ih m h2
      simp only [csum_take, List.take_succ_cons, List.map_cons, List.sum_cons,
        List.getD_cons_succ] at hstep ⊢
      omega

theorem cell_index_aux_getD (cells : List CellModel) (nseg i0 c k : Nat)
    (hc : c < cells.length) (hk : k < nseg * (cells.getD c dCell).nbranches) :
    (cell_index_aux nseg cells i0).getD (nseg * csum_take cells c + k) 0 = i0 + c := by
  induction cells generalizing i0 c with
  | nil => exact absurd hc (by simp)
  | cons x t ih =>
    cases c with
    | zero =>
      have hc0 : csum_take (x :: t) 0 = 0 := by simp [csum_take]
      have hk0 : k < nseg * x.nbranches := by simpa using hk
      rw [hc0, Nat.mul_zero, Nat.zero_add]
      show (List.replicate (nseg * x.nbranches) i0 ++ cell_index_aux nseg t (i0 + 1)).getD k 0
        = i0 + 0
      rw [getD_append_lt _ _ _ _ (by simpa [List.length_replicate] using hk0),
        getD_replicate_lt _ _ _ _ hk0]
      omega
    | succ m =>
      have hc2 : m < t.length := by simpa using hc
      have hk2 : k < nseg * (t.getD m dCell).nbranches := by
        simpa [List.getD_cons_succ] using hk
      have hcs : csum_take (x :: t) (m + 1) = x.nbranches + csum_take t m := by
        simp [csum_take, List.take_succ_cons]
      show (List.replicate (nseg * x.nbranches) i0 ++ cell_index_aux nseg t (i0 + 1)).getD
        (nseg * csum_take (x :: t) (m + 1) + k) 0 = i0 + (m + 1)
      have hpos : nseg * csum_take (x :: t) (m + 1) + k
          = (List.replicate (nseg * x.nbranches) i0).length + (nseg * csum_take t m + k) := by
        rw [hcs, List.length_replicate, Nat.mul_add]
        ring
      rw [hpos, getD_append_ge, ih (i0 + 1) m hc2 hk2]
      omega

theorem cell_index_interval (cells : List CellModel) (nseg c i : Nat)
    (hc : c < cells.length) (h1 : nseg * csum_take cells c ≤ i)
    (h2 : i < nseg * csum_take cells (c + 1)) :
    (cell_index_col cells nseg).getD i 0 = c := by
  have hsucc : nseg * csum_take cells (c + 1)
      = nseg * csum_take cells c + nseg * (cells.getD c dCell).nbranches := by
    rw [csum_take_succ cells c hc, Nat.mul_add]
  have hk : i - nseg * csum_take cells c < nseg * (cells.getD c dCell).nbranches := by
    omega
  have haux := cell_index_aux_getD cells nseg 0 c (i - nseg * csum_take cells c) hc hk
  have hi : nseg * csum_take cells c + (i - nseg * csum_take cells c) = i := by omega
  rw [hi] at haux
  simpa [cell_index_col] using haux

theorem branch_index_block (cells : List CellModel) (nseg b j : Nat)
    (hb : b < total_nbranches cells) (hj : j < nseg) :
    (branch_index_col cells nseg).getD (nseg * b + j) 0 = b := by
  have hn : 0 < nseg := by omega
  have hpos : nseg * b + j < nseg * total_nbranches cells := by
    have h3 : nseg * (b + 1) ≤ nseg * total_nbranches cells :=
      Nat.mul_le_mul (Nat.le_refl nseg) hb
    have h4 : nseg * (b + 1) = nseg * b + nseg := by ring
    omega
  unfold branch_index_col
  rw [getD_map_lt _ _ _ _ 0 (by simpa [total_nbranches] using hpos),
    getD_range_lt _ _ (by simpa [total_nbranches] using hpos)]
  rw [Nat.add_comm (nseg * b) j, Nat.add_mul_div_left j b hn, Nat.div_eq_of_lt hj]
  omega

theorem shift_parents_length (p : List Int) (off : Nat) :
    (shift_parents p off).length = p.length := by
  cases p <;> simp [shift_parents]

theorem shift_parents_getD (p : List Int) (off : Nat) (k : Nat) (h : k < p.length) :
    (shift_parents p off).getD k 0 =
      if k = 0 then p.getD 0 0 else p.getD k 0 + (off : Int) := by
  cases p with
  | nil => exact absurd h (by simp)
  | cons x t =>
    cases k with
    | zero => simp [shift_parents]
    | succ m =>
      have h2 : m < t.length := by simpa using h
      simp only [shift_parents, List.getD_cons_succ]
      rw [getD_map_lt _ _ _ _ 0 h2]
      simp

theorem comb_parents_aux_getD (ps : List (List Int)) (csum : List Nat) (i c k : Nat)
    (hc : c < ps.length) (hk : k < (ps.getD c []).length) :
    (comb_parents_aux csum ps i).getD (sum_lens (ps.take c) + k) 0 =
      (shift_parents (ps.getD c []) (csum.getD (i + c) 0)).getD k 0 := by
  induction ps generalizing i c with
  | nil => exact absurd hc (by simp)
  | cons p rest ih =>
    cases c with
    | zero =>
      have hk0 : k < p.length := by simpa using hk
      have hz : sum_lens ((p :: rest).take 0) = 0 := by simp [sum_lens]
      rw [hz, Nat.zero_add]
      show (shift_parents p (csum.getD i 0) ++ comb_parents_aux csum rest (i + 1)).getD k 0
        = (shift_parents ((p :: rest).getD 0 []) (csum.getD (i + 0) 0)).getD k 0
      rw [getD_append_lt _ _ _ _ (by rw [shift_parents_length]; exact hk0)]
      rfl
    | succ m =>
      have hc2 : m < rest.length := by simpa using hc
      have hk2 : k < (rest.getD m []).length := by simpa [List.getD_cons_succ] using hk
      have hs : sum_lens ((p :: rest).take (m + 1)) = p.length + sum_lens (rest.take m) := by
        simp [sum_lens, List.take_succ_cons]
      show (shift_parents p (csum.getD i 0) ++ comb_parents_aux csum rest (i + 1)).getD
        (sum_lens ((p :: rest).take (m + 1)) + k) 0
        = (shift_parents ((p :: rest).getD (m + 1) []) (csum.getD (i + (m + 1)) 0)).getD k 0
      have hpos : sum_lens ((p :: rest).take (m + 1)) + k
          = (shift_parents p (csum.getD i 0)).length + (sum_lens (rest.take m) + k) := by
        rw [hs, shift_parents_length]
        ring
      rw [hpos, getD_append_ge, ih (i + 1) m hc2 hk2]
      have hidx : i + 1 + m = i + (m + 1) := by ring
      rw [hidx]
      rfl

theorem sum_lens_map_parents (cells : List CellModel) (c : Nat) :
    sum_lens ((cells.map CellModel.parents).take c) = csum_take cells c := by
  unfold sum_lens csum_take
  rw [← List.map_take, List.map_map]
  rfl

theorem comb_parents_aux_length (ps : List (List Int)) (csum : List Nat) (i : Nat) :
    (comb_parents_aux csum ps i).length = sum_lens ps := by
  induction ps generalizing i with
  | nil => simp [comb_parents_aux, sum_lens]
  | cons p rest ih =>
    simp [comb_parents_aux, sum_lens, shift_parents_length, ih, List.map_cons,
      List.sum_cons]

theorem cumsumAux_length (l : List Nat) (acc : Nat) :
    (cumsumAux acc l).length = l.length + 1 := by
  induction l generalizing acc with
  | nil => rfl
  | cons x xs ih => simp [cumsumAux, ih]

/- ## Lemmas about `_build_parents` -/

theorem buildParentEntry_ok (all_last : List Int) (i : Nat) (first : Int) (p : Int)
    (h : buildParentEntry all_last i first = Except.ok p) :
    p ≠ (i : Int)
    ∧ (p = -1 ∨ ∃ j : Nat, j < all_last.length ∧ j ≠ i ∧ p = (j : Int)
        ∧ all_last.getD j 0 = first)
    ∧ ((List.range all_last.length).filter (fun j => all_last.getD j 0 == first) = [i]
        → p = -1) := by
  unfold buildParentEntry at h
  cases hf : (List.range all_last.length).filter (fun j => all_last.getD j 0 == first) with
  | nil =>
    rw [hf] at h
    have hp : p = -1 := by
      cases h
      rfl
    subst hp
    refine ⟨by omega, Or.inl rfl, fun _ => rfl⟩
  | cons j tail =>
    cases tail with
    | nil =>
      rw [hf] at h
      have hjmem : j ∈ (List.range all_last.length).filter
          (fun k => all_last.getD k 0 == first) := by
        rw [hf]
        exact List.mem_cons_self j []
      have hjr := List.mem_filter.mp hjmem
      have hjlt : j < all_last.length := List.mem_range.mp hjr.1
      have hjeq : all_last.getD j 0 = first := by
        have := hjr.2
        exact beq_iff_eq.mp this
      by_cases hji : j = i
      · subst hji
        simp only [if_pos rfl] at h
        have hp : p = -1 := by
          cases h
          rfl
        subst hp
        refine ⟨by omega, Or.inl rfl, fun _ => rfl⟩
      · simp only [if_neg hji] at h
        have hp : p = (j : Int) := by
          cases h
          rfl
        subst hp
        refine ⟨?_, Or.inr ⟨j, hjlt, hji, rfl, hjeq⟩, ?_⟩
        · intro hji2
          exact hji (by exact_mod_cast hji2)
        · intro hfi
          have hji2 : j = i := by injection hfi
          exact absurd hji2 hji
    | cons b tb =>
      rw [hf] at h
      cases h

theorem buildParentsAux_ok (all_last : List Int) (branches : List SwcBranch) (i : Nat)
    (ps : List Int) (h : buildParentsAux all_last branches i = Except.ok ps) :
    ps.length = branches.length
    ∧ ∀ k, k < branches.length →
      buildParentEntry all_last (i + k) ((branches.getD k []).headD 0)
        = Except.ok (ps.getD k 0) := by
  induction branches generalizing i ps with
  | nil =>
    unfold buildParentsAux at h
    have hp : ps = [] := by
      cases h
      rfl
    subst hp
    exact ⟨rfl, fun k hk => absurd hk (by simp)⟩
  | cons b rest ih =>
    unfold buildParentsAux at h
    cases he : buildParentEntry all_last i (b.headD 0) with
    | error e => rw [he] at h; cases h
    | ok p =>
      rw [he] at h
      cases hr : buildParentsAux all_last rest (i + 1) with
      | error e => rw [hr] at h; cases h
      | ok ps2 =>
        rw [hr] at h
        have hp : ps = p :: ps2 := by
          cases h
          rfl
        subst hp
        obtain ⟨hl, hk⟩ := ih (i + 1) ps2 hr
        refine ⟨by simp [hl], ?_⟩
        intro k hk2
        cases k with
        | zero =>
          simpa using he
        | succ m =>
          have hm : m < rest.length := by simpa using hk2
          have := hk m hm
          have hidx : i + (m + 1) = i + 1 + m := by ring
          rw [hidx]
          simpa [List.getD_cons_succ] using this

/- ## Lemmas about the step model -/

theorem lookup_set (d : StateDict) (k : String) (v : List ℤ) :
    StateDict.lookup (StateDict.set d k v) k = some v := by
  induction d with
  | nil => simp [StateDict.set, StateDict.lookup]
  | cons kv t ih =>
    by_cases hk : kv.1 = k
    · simp [StateDict.set, hk, StateDict.lookup]
    · simp [StateDict.set, hk, StateDict.lookup, ih]

theorem reshape2_getD_length (x : List ℤ) (rows cols b : Nat) (hb : b < rows) :
    ((reshape2 x rows cols).getD b []).length = cols := by
  unfold reshape2
  rw [getD_map_lt _ _ _ _ 0 (by simpa using hb)]
  simp

theorem step_voltages_flatten_length (x : List ℤ) (rows cols : Nat)
    (vt ct : List (List ℤ)) (dt : ℤ) :
    (step_voltages (reshape2 x rows cols) vt ct dt).flatten.length = rows * cols := by
  rw [List.length_flatten]
  unfold step_voltages
  rw [List.map_map]
  have hlen : (reshape2 x rows cols).length = rows := by
    simp [reshape2]
  rw [hlen]
  have hcongr : ∀ b ∈ List.range rows,
      (List.length ∘ fun b =>
        (List.range (((reshape2 x rows cols).getD b []).length)).map (fun k =>
          let v := ((reshape2 x rows cols).getD b []).getD k 0
          let vterm := (vt.getD b []).getD k 0
          let cterm := (ct.getD b []).getD k 0
          v + dt * (cterm - vterm * v))) b = (fun _ => cols) b := by
    intro b hb
    have hb2 := List.mem_range.mp hb
    simp only [Function.comp, List.length_map, List.length_range]
    rw [reshape2_getD_length x rows cols b hb2]
  rw [List.map_congr_left hcongr, sum_map_const_nat, List.length_range]

/- ## Claim theorems -/

/-- Claim C5: after `Network.init_morph`, the nodes table (the `nodes` field
of every successfully returned structure, always `init_morph_nodes`) assigns
global compartment indices `0 .. nseg * sum(nbranches) - 1`; compartment `i`
belongs to branch `i / nseg`; each branch `b` occupies exactly the contiguous
block of positions `nseg * b + j` for `j < nseg` (so branches are laid out in
input order within each cell); and the compartments whose positions fall in
cell `c`'s branch range carry cell index `c` (cells in construction order). -/
theorem init_morph_nodes_layout (cells : List CellModel) (nseg : Nat) :
    (∀ m, init_morph cells nseg = Except.ok m → m.nodes = init_morph_nodes cells nseg)
    ∧ (∀ i, i < nseg * total_nbranches cells →
      (init_morph_nodes cells nseg).comp_index.getD i 0 = i)
    ∧ (∀ i, i < nseg * total_nbranches cells →
      (init_morph_nodes cells nseg).branch_index.getD i 0 = i / nseg)
    ∧ (∀ b j, b < total_nbranches cells → j < nseg →
      (init_morph_nodes cells nseg).branch_index.getD (nseg * b + j) 0 = b)
    ∧ (∀ c i, c < cells.length → nseg * csum_take cells c ≤ i →
      i < nseg * csum_take cells (c + 1) →
      (init_morph_nodes cells nseg).cell_index.getD i 0 = c) := by
  refine ⟨?_, ?_, ?_, ?_, ?_⟩
  · intro m hm
    unfold init_morph at hm
    cases hchk : check_topology (comb_parents cells) 4 with
    | error e =>
      rw [hchk] at hm
      exact absurd hm (by simp)
    | ok u =>
      rw [hchk] at hm
      have hm2 : Except.ok (⟨cumsum_num_branches cells, comb_parents cells,
          comb_ind_of_kids cells, init_morph_nodes cells nseg⟩ : MorphStructs)
          = Except.ok m := hm
      cases hm2
      rfl
  · intro i hi
    show (comp_index_col cells nseg).getD i 0 = i
    exact getD_range_lt _ _ hi
  · intro i hi
    show (branch_index_col cells nseg).getD i 0 = i / nseg
    unfold branch_index_col
    rw [getD_map_lt _ _ _ _ 0 (by simpa [total_nbranches] using hi),
      getD_range_lt _ _ (by simpa [total_nbranches] using hi)]
  · intro b j hb hj
    exact branch_index_block cells nseg b j hb hj
  · intro c i hc h1 h2
    exact cell_index_interval cells nseg c i hc h1 h2

/-- Witness for C5 on the concrete two-cell network `exCells` with `nseg = 2`
(a valid topology, so `init_morph` returns the structures). -/
theorem init_morph_nodes_layout_witness :
    (init_morph exCells 2 = Except.ok
      ⟨[0, 2, 5], [-1, 0, -1, 2, 3], [-1, 0, -1, 0, 0], init_morph_nodes exCells 2⟩)
    ∧ (MorphStructs.nodes
        ⟨[0, 2, 5], [-1, 0, -1, 2, 3], [-1, 0, -1, 0, 0], init_morph_nodes exCells 2⟩
        = init_morph_nodes exCells 2)
    ∧ ((init_morph_nodes exCells 2).comp_index.getD 3 0 = 3)
    ∧ ((init_morph_nodes exCells 2).branch_index.getD 3 0 = 3 / 2)
    ∧ ((init_morph_nodes exCells 2).branch_index.getD (2 * 2 + 1) 0 = 2)
    ∧ ((init_morph_nodes exCells 2).cell_index.getD 5 0 = 1)
    ∧ (init_morph_nodes exCells 2).cell_index = [0, 0, 0, 0, 1, 1, 1, 1, 1, 1] := by
  have h := init_morph_nodes_layout exCells 2
  have hok : init_morph exCells 2 = Except.ok
      ⟨[0, 2, 5], [-1, 0, -1, 2, 3], [-1, 0, -1, 0, 0], init_morph_nodes exCells 2⟩ := by
    rfl
  exact ⟨hok, h.1 _ hok, h.2.1 3 (by decide), h.2.2.1 3 (by decide),
    h.2.2.2.1 2 1 (by decide) (by decide),
    h.2.2.2.2 1 5 (by decide) (by decide) (by decide), by decide⟩

/-- Claim C6: `cumsum_num_branches` has entry `c` equal to the total branch
count of cells `0 .. c-1` (entry 0 being 0 is the case `c = 0`), and
`comb_parents` maps cell `c`'s branch `k` (at global position
`csum_take cells c + k`) to `parents_c[k] + cumsum_num_branches[c]` for
`k >= 1` while leaving each cell's entry `k = 0` (the root sentinel −1)
unchanged. -/
theorem init_morph_cumsum_and_comb_parents (cells : List CellModel) :
    (∀ c, c ≤ cells.length →
      (cumsum_num_branches cells).getD c 0 = csum_take cells c)
    ∧ (∀ c k, c < cells.length → 1 ≤ k → k < (cells.getD c dCell).parents.length →
      (comb_parents cells).getD (csum_take cells c + k) 0 =
        (cells.getD c dCell).parents.getD k 0
          + ((cumsum_num_branches cells).getD c 0 : Int))
    ∧ (∀ c, c < cells.length → 0 < (cells.getD c dCell).parents.length →
      (comb_parents cells).getD (csum_take cells c) 0 =
        (cells.getD c dCell).parents.getD 0 0) := by
  have hcs : ∀ c, c ≤ cells.length →
      (cumsum_num_branches cells).getD c 0 = csum_take cells c := by
    intro c hc
    unfold cumsum_num_branches
    rw [cumsumAux_getD _ _ _ (by simpa [network_nbranches] using hc),
      take_network_nbranches]
    omega
  have hget : ∀ c, c < cells.length →
      (cells.map CellModel.parents).getD c [] = (cells.getD c dCell).parents := by
    intro c hc
    exact getD_map_lt CellModel.parents cells c [] dCell hc
  refine ⟨hcs, ?_, ?_⟩
  · intro c k hc hk1 hk2
    have hc2 : c < (cells.map CellModel.parents).length := by simpa using hc
    have hk3 : k < ((cells.map CellModel.parents).getD c []).length := by
      rw [hget c hc]
      exact hk2
    have haux := comb_parents_aux_getD (cells.map CellModel.parents)
      (cumsum_num_branches cells) 0 c k hc2 hk3
    rw [sum_lens_map_parents, Nat.zero_add, hget c hc] at haux
    rw [show comb_parents cells
        = comb_parents_aux (cumsum_num_branches cells) (cells.map CellModel.parents) 0
      from rfl, haux, shift_parents_getD _ _ _ hk2, if_neg (by omega)]
  · intro c hc hlen
    have hc2 : c < (cells.map CellModel.parents).length := by simpa using hc
    have hk3 : (0 : Nat) < ((cells.map CellModel.parents).getD c []).length := by
      rw [hget c hc]
      exact hlen
    have haux := comb_parents_aux_getD (cells.map CellModel.parents)
      (cumsum_num_branches cells) 0 c 0 hc2 hk3
    rw [sum_lens_map_parents, Nat.zero_add, hget c hc, Nat.add_zero] at haux
    rw [show comb_parents cells
        = comb_parents_aux (cumsum_num_branches cells) (cells.map CellModel.parents) 0
      from rfl, haux, shift_parents_getD _ _ _ hlen, if_pos rfl]

/-- Witness for C6 on `exCells` (branch counts 2 and 3): the offset after both
cells is 5, cell 1's branch 2 is remapped to `1 + 2 = 3` at global position
4, and cell 1's root entry stays −1. -/
theorem init_morph_cumsum_and_comb_parents_witness :
    ((cumsum_num_branches exCells).getD 2 0 = csum_take exCells 2)
    ∧ ((comb_parents exCells).getD (csum_take exCells 1 + 2) 0 =
        (exCells.getD 1 dCell).parents.getD 2 0
          + ((cumsum_num_branches exCells).getD 1 0 : Int))
    ∧ ((comb_parents exCells).getD (csum_take exCells 1) 0 =
        (exCells.getD 1 dCell).parents.getD 0 0)
    ∧ (cumsum_num_branches exCells = [0, 2, 5])
    ∧ (comb_parents exCells = [-1, 0, -1, 2, 3]) := by
  have h := init_morph_cumsum_and_comb_parents exCells
  exact ⟨h.1 2 (by decide), h.2.1 1 2 (by decide) (by decide) (by decide),
    h.2.2 1 (by decide) (by decide), by decide, by decide⟩

/-- Claim C3: for every list of cells whose combined parent array contains an
out-of-range parent index, a cycle (a branch reachable from itself via parent
pointers), or a parent with more than `max_num_kids` (= 4) children,
`Network.init_morph` fails with a `TopologyError` at indexing time — before
any stepping occurs — and does not return derived index structures. -/
theorem init_morph_fails_on_bad_topology (cells : List CellModel) (nseg : Nat)
    (h : has_out_of_range_parent (comb_parents cells) = true
      ∨ has_cycle (comb_parents cells) = true
      ∨ has_excess_fanout (comb_parents cells) 4 = true) :
    ∃ e : TopologyError, init_morph cells nseg = Except.error e
      ∧ ∀ m : MorphStructs, init_morph cells nseg ≠ Except.ok m := by
  have key : ∃ e : TopologyError,
      check_topology (comb_parents cells) 4 = Except.error e := by
    by_cases h1 : has_out_of_range_parent (comb_parents cells) = true
    · exact ⟨TopologyError.outOfRangeParent, by simp [check_topology, h1]⟩
    · rw [Bool.not_eq_true] at h1
      by_cases h2 : has_cycle (comb_parents cells) = true
      · exact ⟨TopologyError.cycleDetected, by simp [check_topology, h1, h2]⟩
      · rw [Bool.not_eq_true] at h2
        by_cases h3 : has_excess_fanout (comb_parents cells) 4 = true
        · exact ⟨TopologyError.excessFanOut, by simp [check_topology, h1, h2, h3]⟩
        · rw [Bool.not_eq_true] at h3
          rcases h with h | h | h
          · rw [h1] at h; cases h
          · rw [h2] at h; cases h
          · rw [h3] at h; cases h
  obtain ⟨e, he⟩ := key
  refine ⟨e, ?_, ?_⟩
  · unfold init_morph
    rw [he]
  · intro m hm
    unfold init_morph at hm
    rw [he] at hm
    exact absurd hm (by simp)

/-- Witness for C3 on `badCells` (branch 1 names the out-of-range parent 5):
`init_morph` fails with `TopologyError.outOfRangeParent` and returns no
structures. -/
theorem init_morph_fails_on_bad_topology_witness :
    (has_out_of_range_parent (comb_parents badCells) = true)
    ∧ (init_morph badCells 2 = Except.error TopologyError.outOfRangeParent)
    ∧ (∃ e : TopologyError, init_morph badCells 2 = Except.error e
        ∧ ∀ m : MorphStructs, init_morph badCells 2 ≠ Except.ok m) := by
  refine ⟨by decide, by rfl, ?_⟩
  exact init_morph_fails_on_bad_topology badCells 2 (Or.inl (by decide))

/-- Claim C10: whenever `_build_parents` returns a parent array, it contains
no self-reference — `parents[i] ≠ i` for every `i` — and each entry is either
−1 or the index of a different branch whose last node id equals branch `i`'s
first node id; in particular, a branch whose only matching parent candidate
is itself receives the root sentinel −1.  (When two or more branches match,
the source raises a `ValueError` from the ambiguous array truth value and no
array is returned, which the `Except.ok` hypothesis excludes.) -/
theorem build_parents_no_self_parent (branches : List SwcBranch) (parents : List Int)
    (h : build_parents branches = Except.ok parents) :
    parents.length = branches.length
    ∧ ∀ i, i < branches.length →
      parents.getD i 0 ≠ (i : Int)
      ∧ (parents.getD i 0 = -1 ∨ ∃ j : Nat, j < branches.length ∧ j ≠ i ∧
          parents.getD i 0 = (j : Int) ∧
          (branches.getD j []).getLastD 0 = (branches.getD i []).headD 0)
      ∧ (parent_candidate_inds branches i = [i] → parents.getD i 0 = -1) := by
  unfold build_parents at h
  obtain ⟨hl, hk⟩ := buildParentsAux_ok _ _ _ _ h
  refine ⟨hl, ?_⟩
  intro i hi
  have he := hk i hi
  rw [Nat.zero_add] at he
  obtain ⟨h1, h2, h3⟩ := buildParentEntry_ok _ _ _ _ he
  refine ⟨h1, ?_, ?_⟩
  · rcases h2 with h2 | ⟨j, hj1, hj2, hj3, hj4⟩
    · exact Or.inl h2
    · refine Or.inr ⟨j, by simpa using hj1, hj2, hj3, ?_⟩
      rw [getD_map_lt _ _ _ _ [] (by simpa using hj1)] at hj4
      exact hj4
  · intro hc
    exact h3 (by simpa [parent_candidate_inds] using hc)

/-- Witness for C10 on `exBranches`: branch 1 gets parent 0, branch 2 (whose
only matching parent candidate is itself) gets −1, and no entry equals its
own index. -/
theorem build_parents_no_self_parent_witness :
    (build_parents exBranches = Except.ok [-1, 0, -1])
    ∧ (([-1, 0, -1] : List Int).getD 1 0 ≠ (1 : Int))
    ∧ (parent_candidate_inds exBranches 2 = [2])
    ∧ (([-1, 0, -1] : List Int).getD 2 0 = -1) := by
  have hb : build_parents exBranches = Except.ok [-1, 0, -1] := by rfl
  have h := build_parents_no_self_parent exBranches [-1, 0, -1] hb
  exact ⟨hb, (h.2 1 (by decide)).1, by decide, (h.2 2 (by decide)).2.2 (by decide)⟩

/-- Claim C9: attribute lookup on a `Network` for a name with no ordinary
binding succeeds only for the name "cell", returning a `CellView` over the
nodes table; for every other name `Network.__getattr__` raises
`AssertionError`, never the usual `AttributeError`. -/
theorem getattr_only_cell (nodes : NodesTable) (key : String) :
    ((∃ v, network_getattr nodes key = Except.ok v) ↔ key = ("cell" : String))
    ∧ (key = ("cell" : String) → network_getattr nodes key = Except.ok ⟨nodes⟩)
    ∧ (key ≠ ("cell" : String) →
      network_getattr nodes key = Except.error PyExn.assertionError) := by
  unfold network_getattr
  by_cases hk : key = ("cell" : String)
  · refine ⟨?_, ?_, ?_⟩ <;> simp [hk]
  · refine ⟨?_, ?_, ?_⟩ <;> simp [hk]

/-- Witness for C9: looking up "branch" raises `AssertionError`; looking up
"cell" yields the `CellView`. -/
theorem getattr_only_cell_witness :
    (network_getattr exNodes ("branch") = Except.error PyExn.assertionError)
    ∧ (network_getattr exNodes ("cell") = Except.ok ⟨exNodes⟩) := by
  exact ⟨(getattr_only_cell exNodes ("branch")).2.2 (by decide),
    (getattr_only_cell exNodes ("cell")).2.1 rfl⟩

/-- Claim C1, evaluated at the failing input `exNet`, `exU`, `dt = 1`, no
stimulus: `_step_synapse` produces the nonzero synaptic terms `[2]` and
`[3]`, yet the `voltage_terms` and `constant_terms` arguments that
`Network.step` hands to `step_voltages` are the channel-derived terms (plus
stimulus) alone — they differ from the sums the claim requires, because the
synaptic terms are bound at line 154 and never used. -/
theorem step_omits_synaptic_terms_from_solver :
    ((exNet.stepSynapseFn exU 1).2.1 = [2])
    ∧ ((exNet.stepSynapseFn exU 1).2.2 = [3])
    ∧ (NetworkModel.voltage_terms_arg exNet exU 1 = [[0]])
    ∧ (NetworkModel.constant_terms_arg exNet exU 1 [] [] = [[0]])
    ∧ (NetworkModel.voltage_terms_arg exNet exU 1
        ≠ addMat (NetworkModel.voltage_terms_arg exNet exU 1)
          (reshape2 (exNet.stepSynapseFn exU 1).2.1 exNet.totalBranches exNet.nseg))
    ∧ (NetworkModel.constant_terms_arg exNet exU 1 [] []
        ≠ addMat (NetworkModel.constant_terms_arg exNet exU 1 [] [])
          (reshape2 (exNet.stepSynapseFn exU 1).2.2 exNet.totalBranches exNet.nseg)) := by
  refine ⟨rfl, rfl, by decide, by decide, by decide, by decide⟩

/-- Claim C2, evaluated at the failing input `exNet`, `exU`, `dt = 1`:
`_step_synapse` returns the advanced synaptic state entry `s`, but the state
returned by `Network.step` is `new_channel_states[0]` with `voltages`
overwritten — the synaptic state is absent, while the channel state `m` and
the voltages are present. -/
theorem step_omits_synaptic_states_from_returned_state :
    ((exNet.stepSynapseFn exU 1).1 = [(("s"), [9])])
    ∧ (StateDict.lookup ((exNet.step exU 1 [] []).2) ("s") = none)
    ∧ (StateDict.lookup ((exNet.step exU 1 [] []).2) ("m") = some [5])
    ∧ (StateDict.lookup ((exNet.step exU 1 [] []).2) ("voltages") = some [0]) := by
  refine ⟨rfl, by decide, by decide, by decide⟩

/-- Counterexample for C4: on a network whose conductances are not yet
initialized (`branch_conds_fwd is None`), `Network.step` mutates the network
object — the lazy `init_branch_conds` call at lines 138-139 fills in the
conductance fields, so the object after the call differs from the object
before it. -/
theorem step_mutates_network_when_conds_uninitialized :
    (exNetUninit.branch_conds_fwd = none)
    ∧ ((exNetUninit.step exU 1 [] []).1.branch_conds_fwd = some [1])
    ∧ ((exNetUninit.step exU 1 [] []).1 ≠ exNetUninit) := by
  refine ⟨rfl, by decide, ?_⟩
  intro h
  have h2 := congrArg NetworkModel.branch_conds_fwd h
  have h3 : (exNetUninit.step exU 1 [] []).1.branch_conds_fwd = some [1] := by decide
  rw [h3] at h2
  cases h2

/-- Claim C4 (amended): `Network.step` has no side effect beyond returning
the new state provided the conductances are already initialized
(`branch_conds_fwd` is not `None`); when they are not, `step` first calls
`init_branch_conds`, which sets the conductance fields on the `Network`
object, and only this lazy initialization mutates it. -/
theorem step_pure_when_conds_initialized (n : NetworkModel) (u : StateDict) (dt : ℤ)
    (i_inds : List Nat) (i_current : List ℤ) (h : n.branch_conds_fwd ≠ none) :
    (n.step u dt i_inds i_current).1 = n := by
  cases hbc : n.branch_conds_fwd with
  | none => exact absurd hbc h
  | some v => simp [NetworkModel.step, hbc]

/-- Witness for the amended C4 on the initialized network `exNet`. -/
theorem step_pure_when_conds_initialized_witness :
    (exNet.branch_conds_fwd ≠ none) ∧ ((exNet.step exU 1 [] []).1 = exNet) :=
  ⟨by decide, step_pure_when_conds_initialized exNet exU 1 [] [] (by decide)⟩

/-- Claim C7: every state returned by `Network.step` contains a "voltages"
entry whose length is `nseg` times the total number of branches over all
cells (the total compartment count). -/
theorem step_voltages_entry_length (n : NetworkModel) (u : StateDict) (dt : ℤ)
    (i_inds : List Nat) (i_current : List ℤ) :
    ∃ v, StateDict.lookup (n.step u dt i_inds i_current).2 ("voltages") = some v
      ∧ v.length = n.nseg * n.totalBranches := by
  have key : ∀ m : NetworkModel,
      ∃ v, StateDict.lookup
          (StateDict.set ((m.stepChannelsFn u dt).1.headD []) ("voltages")
            ((step_voltages
              (reshape2 (StateDict.lookupD u ("voltages")) m.totalBranches m.nseg)
              (m.voltage_terms_arg u dt)
              (m.constant_terms_arg u dt i_inds i_current) dt).flatten))
          ("voltages") = some v
        ∧ v.length = m.nseg * m.totalBranches := by
    intro m
    refine ⟨_, lookup_set _ _ _, ?_⟩
    rw [step_voltages_flatten_length]
    exact Nat.mul_comm _ _
  cases hbc : n.branch_conds_fwd with
  | none =>
    have hs : (n.step u dt i_inds i_current).2
        = StateDict.set ((n.init_branch_conds.stepChannelsFn u dt).1.headD []) ("voltages")
          ((step_voltages
            (reshape2 (StateDict.lookupD u ("voltages"))
              n.init_branch_conds.totalBranches n.init_branch_conds.nseg)
            (n.init_branch_conds.voltage_terms_arg u dt)
            (n.init_branch_conds.constant_terms_arg u dt i_inds i_current) dt).flatten) := by
      simp [NetworkModel.step, hbc]
    rw [hs]
    exact key n.init_branch_conds
  | some w =>
    have hs : (n.step u dt i_inds i_current).2
        = StateDict.set ((n.stepChannelsFn u dt).1.headD []) ("voltages")
          ((step_voltages
            (reshape2 (StateDict.lookupD u ("voltages")) n.totalBranches n.nseg)
            (n.voltage_terms_arg u dt)
            (n.constant_terms_arg u dt i_inds i_current) dt).flatten) := by
      simp [NetworkModel.step, hbc]
    rw [hs]
    exact key n

/-- Claim C8: `Network.step` is deterministic — two calls with equal inputs
(state, time step, stimulus indices, stimulus currents) on the same network
return identical outputs.  The embedding is a pure function of its inputs,
faithfully to the source, which invokes no random number generator in the
step path. -/
theorem step_deterministic (n : NetworkModel) (u1 u2 : StateDict) (dt1 dt2 : ℤ)
    (ii1 ii2 : List Nat) (ic1 ic2 : List ℤ)
    (hu : u1 = u2) (hdt : dt1 = dt2) (hii : ii1 = ii2) (hic : ic1 = ic2) :
    n.step u1 dt1 ii1 ic1 = n.step u2 dt2 ii2 ic2 := by
  rw [hu, hdt, hii, hic]

/-- Witness for C8 at the concrete network `exNet`. -/
theorem step_deterministic_witness :
    exNet.step exU 1 [] [] = exNet.step exU 1 [] [] :=
  step_deterministic exNet exU exU 1 1 [] [] [] [] rfl rfl rfl rfl

end NeuraxSpec
